import Mathlib

/-!
# Verification of the `ninjar` build-description generator

A shallow embedding, in Lean 4, of the core logic of the `ninjar` Python
package, together with theorems settling the specification claims about it.

The embedding covers:

* the bounded recursive expression evaluator (`src/ninjar/expr.py`,
  `eval_expr`), including a faithful model of Python's
  `string.Template.substitute` placeholder scanner;
* the ninja statement emitter (`src/ninjar/ninja.py`, `NinjaGenerator`);
* the `Stage.apply` rule-memoization logic (`src/ninjar/ninja.py`);
* the `Query` combinators `apply` and `fold` (`src/ninjar/ninja.py`);
* the action dependency runner (`src/ninjar/main.py`,
  `BuildScript._run_actions` / `_run_single_action`).

Machine strings are modelled as Lean `String` / `List Char`; Python `dict`
variable maps as association lists; the unbounded recursion of the action
runner is modelled with an explicit fuel parameter that is made an error
(`RunErr.noFuel`) when exhausted, so that an error-free run of the model
coincides with a terminating run of the Python code.
-/

deriving instance DecidableEq for Except

namespace Ninjar

/-! ## Expression evaluator (`src/ninjar/expr.py`)

`eval_expr(expr, vars)` first replaces the escape `$$` by the sentinel text
`@=@`, then repeatedly applies `string.Template(expr).substitute(vars)`
while a `$` remains and at most 16 passes, raises `ExprEvalException` when a
variable is missing (`KeyError`) or when the bound is exhausted, and finally
replaces the sentinel `@=@` back by `$`.
-/

/-- Errors raised by Python's `Template.substitute`: `KeyError` for an absent
mapping key (caught by `eval_expr`) and `ValueError` for an invalid
placeholder (not caught by `eval_expr`). -/
inductive PyErr where
  | keyError (name : String)
  | valueError
deriving DecidableEq

/-- First character of a `Template` identifier: `[_a-z]` with `IGNORECASE`
and the ASCII flag, i.e. an ASCII letter or underscore. -/
def isIdStart (c : Char) : Bool := c.isAlpha || c = '_'

/-- Subsequent character of a `Template` identifier: `[_a-z0-9]` with
`IGNORECASE` and the ASCII flag. -/
def isIdChar (c : Char) : Bool := c.isAlphanum || c = '_'

/-- Variable lookup in the snapshot dictionary (modelled as an
association list). -/
def lookupVar (vars : List (String × String)) (name : String) : Option String :=
  vars.lookup name

/-- Scanner state for one `Template.substitute` pass: outside a placeholder,
just after `$`, just after `${`, inside a `$name` identifier, or inside a
`${name}` identifier. -/
inductive TState where
  | normal
  | dollar
  | braceOpen
  | named (acc : List Char)
  | braced (acc : List Char)

/-- One left-to-right scan of `string.Template.substitute`: `$$` becomes
`$`, `$name` and `${name}` become the mapped value (`KeyError` if absent,
raised at the first offending placeholder), and any other use of `$`
(including a trailing `$`, `${` with a malformed identifier, or an unclosed
brace) is a `ValueError`.  Replacement text is inserted verbatim; it is not
rescanned within the same pass. -/
def substStep (vars : List (String × String)) : TState → List Char → Except PyErr (List Char)
  | .normal, [] => .ok []
  | .normal, c :: rest =>
      if c = '$' then substStep vars .dollar rest
      else (substStep vars .normal rest).map (fun t => c :: t)
  | .dollar, [] => .error .valueError
  | .dollar, c :: rest =>
      if c = '$' then (substStep vars .normal rest).map (fun t => '$' :: t)
      else if c = '{' then substStep vars .braceOpen rest
      else if isIdStart c then substStep vars (.named [c]) rest
      else .error .valueError
  | .braceOpen, [] => .error .valueError
  | .braceOpen, c :: rest =>
      if isIdStart c then substStep vars (.braced [c]) rest
      else .error .valueError
  | .named acc, [] =>
      match lookupVar vars (String.mk acc) with
      | some v => .ok v.data
      | none => .error (.keyError (String.mk acc))
  | .named acc, c :: rest =>
      if isIdChar c then substStep vars (.named (acc ++ [c])) rest
      else
        match lookupVar vars (String.mk acc) with
        | some v =>
            if c = '$' then (substStep vars .dollar rest).map (fun t => v.data ++ t)
            else (substStep vars .normal rest).map (fun t => v.data ++ c :: t)
        | none => .error (.keyError (String.mk acc))
  | .braced _, [] => .error .valueError
  | .braced acc, c :: rest =>
      if c = '}' then
        match lookupVar vars (String.mk acc) with
        | some v => (substStep vars .normal rest).map (fun t => v.data ++ t)
        | none => .error (.keyError (String.mk acc))
      else if isIdChar c then substStep vars (.braced (acc ++ [c])) rest
      else .error .valueError

/-- `Template(expr).substitute(vars)`: one full substitution pass. -/
def templateSubstitute (vars : List (String × String)) (s : List Char) : Except PyErr (List Char) :=
  substStep vars .normal s

/-- The `while expr.find('$') != -1 and max_step > 0` loop of `eval_expr`:
repeat `Template.substitute` while a `$` remains and fuel is left, returning
the remaining fuel (Python's final `max_step`) together with the string. -/
def substLoop (vars : List (String × String)) : Nat → List Char → Except PyErr (Nat × List Char)
  | 0, s => .ok (0, s)
  | fuel + 1, s =>
      if s.contains '$' then
        match templateSubstitute vars s with
        | .error e => .error e
        | .ok s2 => substLoop vars fuel s2
      else .ok (fuel + 1, s)

/-- Python `expr.replace('$$', '@=@')`: non-overlapping left-to-right
replacement of the escape by the sentinel text. -/
def replaceDD : List Char → List Char
  | [] => []
  | [c] => [c]
  | c :: c2 :: rest =>
      if c = '$' && c2 = '$' then '@' :: '=' :: '@' :: replaceDD rest
      else c :: replaceDD (c2 :: rest)

/-- Python `expr.replace('@=@', '$')`: non-overlapping left-to-right
restoration of the sentinel text to a literal dollar. -/
def replaceSen : List Char → List Char
  | '@' :: '=' :: '@' :: rest => '$' :: replaceSen rest
  | c :: rest => c :: replaceSen rest
  | [] => []

/-- Outcomes of `eval_expr`: the two `ExprEvalException` cases (undefined
variable, recursion bound exhausted) plus the uncaught `ValueError` a
malformed placeholder makes `Template.substitute` raise. -/
inductive ExprEvalError where
  | undefinedVar (name : String) (originalExpr : String)
  | maxStep (originalExpr : String)
  | invalidPlaceholder (originalExpr : String)
deriving DecidableEq

/-- `eval_expr(expr, vars)` from `src/ninjar/expr.py` (lines 128-149):
escape `$$` to `@=@`, run up to 16 substitution passes while `$` remains,
fail with the max-step error whenever the final `max_step` is 0, and restore
the sentinel. -/
def eval_expr (expr : String) (vars : List (String × String)) : Except ExprEvalError String :=
  match substLoop vars 16 (replaceDD expr.data) with
  | .error (.keyError k) => .error (.undefinedVar k expr)
  | .error .valueError => .error (.invalidPlaceholder expr)
  | .ok (remaining, s) =>
      if remaining = 0 then .error (.maxStep expr)
      else .ok (String.mk (replaceSen s))

/-- `n` consecutive successful `Template.substitute` passes (used to state
when an expression's references all resolve within `n` rounds). -/
def applyPasses (vars : List (String × String)) : Nat → List Char → Except PyErr (List Char)
  | 0, s => .ok s
  | n + 1, s =>
      match templateSubstitute vars s with
      | .error e => .error e
      | .ok s2 => applyPasses vars n s2

example : eval_expr "$$x" [] = .ok "$x" := by decide
example : eval_expr "@=@" [] = .ok "$" := by decide
example : eval_expr "$a" [("a", "b$c"), ("c", "d")] = .ok "bd" := by decide
example : eval_expr "${a}!" [("a", "hi")] = .ok "hi!" := by decide
example : eval_expr "$a" [] = .error (.undefinedVar "a" "$a") := by decide
example : eval_expr "$a" [("a", "$a")] = .error (.maxStep "$a") := by decide

/-! ### Lemmas about the evaluator -/

theorem contains_char_false {a : Char} {l : List Char} :
    l.contains a = false ↔ a ∉ l := by simp

theorem substStep_normal_no_dollar (vars : List (String × String)) :
    ∀ s : List Char, s.contains '$' = false → substStep vars .normal s = .ok s := by
  intro s
  induction s with
  | nil => intro _; rfl
  | cons c rest ih =>
      intro h
      rw [contains_char_false] at h
      have hc : ¬ c = '$' := fun hh => h (by simp [hh])
      have hr : ('$' : Char) ∉ rest := fun hm => h (by simp [hm])
      have ihr := ih (contains_char_false.mpr hr)
      simp [substStep, hc, ihr, Except.map]

theorem substLoop_no_dollar (vars : List (String × String)) (k : Nat) (s : List Char)
    (h : s.contains '$' = false) :
    substLoop vars (k + 1) s = .ok (k + 1, s) := by
  rw [contains_char_false] at h
  simp [substLoop, h]

theorem applyPasses_no_dollar (vars : List (String × String)) (n : Nat) (s : List Char)
    (h : s.contains '$' = false) :
    applyPasses vars n s = .ok s := by
  induction n with
  | zero => rfl
  | succ n ih =>
      simp [applyPasses, templateSubstitute, substStep_normal_no_dollar vars s h, ih]

theorem replaceDD_no_dollar :
    ∀ s : List Char, s.contains '$' = false → replaceDD s = s := by
  intro s
  induction s with
  | nil => intro _; rfl
  | cons c rest ih =>
      intro h
      rw [contains_char_false] at h
      have hc : ¬ c = '$' := fun hh => h (by simp [hh])
      have hr : ('$' : Char) ∉ rest := fun hm => h (by simp [hm])
      have ihr := ih (contains_char_false.mpr hr)
      cases rest with
      | nil => rfl
      | cons c2 r2 => simp [replaceDD, hc, ihr]

/-- If `n` successful substitution passes starting from `s` reach a
`$`-free string, then the bounded loop with fuel `k ≥ n` stops at that very
string with at least `k - n` fuel left. -/
theorem substLoop_reach (vars : List (String × String)) :
    ∀ (n k : Nat) (s final : List Char),
      applyPasses vars n s = .ok final → final.contains '$' = false → n ≤ k →
      ∃ r, substLoop vars k s = .ok (r, final) ∧ k - n ≤ r := by
  intro n
  induction n with
  | zero =>
      intro k s final hp hf _
      have hs : s = final := by simpa [applyPasses] using hp
      subst hs
      cases k with
      | zero => exact ⟨0, rfl, by omega⟩
      | succ j => exact ⟨j + 1, substLoop_no_dollar vars j s hf, by omega⟩
  | succ n ih =>
      intro k s final hp hf hk
      cases k with
      | zero => omega
      | succ j =>
          by_cases hd : ('$' : Char) ∈ s
          · cases hts : templateSubstitute vars s with
            | error e => rw [applyPasses, hts] at hp; cases hp
            | ok s2 =>
                rw [applyPasses, hts] at hp
                obtain ⟨r, hr, hkr⟩ := ih j s2 final hp hf (by omega)
                refine ⟨r, ?_, by omega⟩
                simp [substLoop, hd, hts, hr]
          · have hd' : s.contains '$' = false := contains_char_false.mpr hd
            have hps : applyPasses vars (n + 1) s = .ok s :=
              applyPasses_no_dollar vars (n + 1) s hd'
            rw [hp] at hps
            have hfs : final = s := by cases hps; rfl
            subst hfs
            exact ⟨j + 1, substLoop_no_dollar vars j final hd', by omega⟩

/-! ### Claim theorems about the expression evaluator -/

/-- A variable chain that needs exactly 16 substitution rounds to resolve:
`$v16 -> $v15 -> ... -> $v1 -> x`. -/
def chainVars : List (String × String) :=
  [("v16", "$v15"), ("v15", "$v14"), ("v14", "$v13"), ("v13", "$v12"),
   ("v12", "$v11"), ("v11", "$v10"), ("v10", "$v9"), ("v9", "$v8"),
   ("v8", "$v7"), ("v7", "$v6"), ("v6", "$v5"), ("v5", "$v4"),
   ("v4", "$v3"), ("v3", "$v2"), ("v2", "$v1"), ("v1", "x")]

/-- C1 counterexample: the expression `$v16` under `chainVars` resolves
completely (to `x`, which contains no `$`) in exactly 16 substitution
rounds, yet `eval_expr` raises the max-step `ExprEvalException`, because the
code raises whenever `max_step` reaches 0, even when the 16th pass
eliminated the last reference.  This refutes the claim that evaluation
succeeds "including when resolution consumes exactly the 16th round". -/
theorem c1_counterexample :
    applyPasses chainVars 16 (replaceDD ("$v16" : String).data) = .ok ("x" : String).data ∧
    ("x" : String).data.contains '$' = false ∧
    eval_expr "$v16" chainVars = .error (.maxStep "$v16") := by
  refine ⟨by decide, by decide, by decide⟩

/-- C1 (amended): for every variable mapping and every expression whose
references all resolve (transitively) within at most 15 substitution
rounds — i.e. `n ≤ 15` successful `Template.substitute` passes starting
from the escaped expression reach a string with no `$` left — `eval_expr`
succeeds without raising, returning that fully resolved string with the
escape sentinel restored.  (Resolution that consumes exactly the 16th round
instead raises the max-step error, as `c1_counterexample` shows.) -/
theorem c1_amended (vars : List (String × String)) (e : String) (n : Nat) (final : List Char)
    (hn : n ≤ 15)
    (hp : applyPasses vars n (replaceDD e.data) = .ok final)
    (hf : final.contains '$' = false) :
    eval_expr e vars = .ok (String.mk (replaceSen final)) := by
  obtain ⟨r, hr, hkr⟩ := substLoop_reach vars n 16 (replaceDD e.data) final hp hf (by omega)
  have hrpos : ¬ r = 0 := by omega
  simp [eval_expr, hr, hrpos]

/-- Witness for `c1_amended` at a concrete input: `$a` with `a = hello`
resolves in one pass. -/
theorem c1_amended_witness :
    (1 ≤ 15 ∧
      applyPasses [("a", "hello")] 1 (replaceDD ("$a" : String).data) =
        .ok ("hello" : String).data ∧
      ("hello" : String).data.contains '$' = false) ∧
    eval_expr "$a" [("a", "hello")] = .ok "hello" :=
  ⟨⟨by decide, by decide, by decide⟩,
    c1_amended [("a", "hello")] "$a" 1 ("hello" : String).data
      (by decide) (by decide) (by decide)⟩

/-- C8: `eval_expr "$$x" {} = "$x"` — the `$$` escape is turned into the
sentinel before substitution, protected from the loop (no `$` remains, so no
pass runs and nothing is raised), and restored as a single literal `$`. -/
theorem c8_escape_roundtrip : eval_expr "$$x" [] = .ok "$x" := by decide

/-- C9: the escape sentinel is the literal text `@=@`, so an expression that
already contains `@=@` (and no `$`) is returned with every occurrence of
`@=@` replaced by `$`, for every variable mapping: the restoration pass
cannot tell user text from the sentinel.  In particular
`eval_expr "@=@" V = "$"`, and in general any `$`-free expression comes back
with `replaceSen` (the model of `str.replace('@=@', '$')`) applied to it. -/
theorem c9_sentinel_collision :
    (∀ vars : List (String × String), eval_expr "@=@" vars = .ok "$") ∧
    (∀ vars : List (String × String), eval_expr "x@=@y@=@" vars = .ok "x$y$") ∧
    (∀ (vars : List (String × String)) (s : String), s.data.contains '$' = false →
      eval_expr s vars = .ok (String.mk (replaceSen s.data))) := by
  refine ⟨fun vars => rfl, fun vars => rfl, fun vars s h => ?_⟩
  have hdd : replaceDD s.data = s.data := replaceDD_no_dollar s.data h
  have hloop : substLoop vars 16 s.data = .ok (16, s.data) := substLoop_no_dollar vars 15 s.data h
  simp [eval_expr, hdd, hloop]

/-- Witness for the universally quantified part of `c9_sentinel_collision`
at a concrete input. -/
theorem c9_sentinel_collision_witness :
    (("ab@=@" : String).data.contains '$' = false) ∧
    eval_expr "ab@=@" [] = .ok "ab$" :=
  ⟨by decide, c9_sentinel_collision.2.2 [] "ab@=@" (by decide)⟩

/-! ## Statement emitter (`src/ninjar/ninja.py`, `NinjaGenerator`)

`NinjaGenerator.__init__` opens the sink and writes the header immediately;
`add_rule` writes its rule block immediately; `add_build` only appends the
build statement string to the `build_item` buffer; `add_defaults` only
appends to the `default_item` buffer; `__exit__` — invoked by the `with`
statement on every exit path, and ignoring its exception arguments — writes
the buffered build statements, the statement-count comment and exactly one
`default` line, then closes the sink.  The sink is modelled as the ordered
list of strings passed to `write`/`writelines`. -/

/-- The emitter's state: text chunks already written to the sink, the
buffered build statements, and the accumulated default targets. -/
structure NinjaGenerator where
  written : List String
  build_item : List String
  default_item : List String
deriving DecidableEq

/-- The four header chunks `__init__` writes eagerly (the timestamp is a
parameter standing for `time.strftime(...)`). -/
def headerChunks (cur_time : String) : List String :=
  ["# <autogen>\n",
   "# This file was auto generated, DO NOT edit it by manual\n",
   "# Generated at " ++ cur_time ++ "\n",
   "# </autogen>\n"]

/-- `NinjaGenerator.__init__`: empty buffers, header written. -/
def ninjaInit (cur_time : String) : NinjaGenerator :=
  { written := headerChunks cur_time, build_item := [], default_item := [] }

/-- The chunks `add_rule(name, command, description, dep_file)` writes
immediately: the rule block with optional description/depfile lines. -/
def ruleChunks (name command description dep_file : String) : List String :=
  ["rule " ++ name ++ "\n", "    command = " ++ command ++ "\n"]
    ++ (if description.length > 0 then ["    description = " ++ description ++ "\n"] else [])
    ++ (if dep_file.length > 0 then ["    depfile = " ++ dep_file ++ "\n"] else [])

/-- The build statement string `add_build(rule, out, inp, dyn_deps)`
buffers: `build <out>: <rule> <inputs>` with an optional `||`-separated
order-only dependency list. -/
def buildStatement (rule out : String) (inp dyn_deps : List String) : String :=
  let inputs := String.intercalate " " inp
  if dyn_deps.length > 0 then
    "build " ++ out ++ ": " ++ rule ++ " " ++ inputs ++ " " ++
      ("|| " ++ String.intercalate " " dyn_deps)
  else
    "build " ++ out ++ ": " ++ rule ++ " " ++ inputs

/-- One mutation of the generator between creation and scope exit. -/
inductive NinjaOp where
  | addRule (name command description dep_file : String)
  | addBuild (rule out : String) (inp dyn_deps : List String)
  | addDefaultsOne (file : String)
  | addDefaultsMany (files : List String)

/-- Applying one operation: `add_rule` writes now, `add_build` and
`add_defaults` (both the single-string and the list overload) only
buffer. -/
def applyNinjaOp (g : NinjaGenerator) : NinjaOp → NinjaGenerator
  | .addRule n c d f => { g with written := g.written ++ ruleChunks n c d f }
  | .addBuild r o i dd => { g with build_item := g.build_item ++ [buildStatement r o i dd] }
  | .addDefaultsOne s => { g with default_item := g.default_item ++ [s] }
  | .addDefaultsMany l => { g with default_item := g.default_item ++ l }

/-- A whole session body: the operations in call order. -/
def runNinjaOps (g : NinjaGenerator) (ops : List NinjaOp) : NinjaGenerator :=
  ops.foldl applyNinjaOp g

/-- The chunks `__exit__` writes at scoped release: every buffered build
statement followed by a newline, the statement-count comment, and exactly
one `default` line.  The `exc` argument models the exception information
`__exit__` receives on an error exit path; the code ignores it, so the
writes are the same on every exit path. -/
def ninjaExit (_exc : Option String) (g : NinjaGenerator) : NinjaGenerator :=
  { g with written := g.written
      ++ g.build_item.foldr (fun l acc => l :: "\n" :: acc) []
      ++ ["# " ++ toString g.build_item.length ++ " build statements were generated\n",
          "# default target:\n",
          "default " ++ String.intercalate " " g.default_item,
          "\n"] }

/-- Rule chunks contributed by one operation. -/
def opRuleChunks : NinjaOp → List String
  | .addRule n c d f => ruleChunks n c d f
  | _ => []

/-- Build statements contributed by one operation. -/
def opBuildStmts : NinjaOp → List String
  | .addBuild r o i dd => [buildStatement r o i dd]
  | _ => []

/-- Default targets contributed by one operation. -/
def opDefaults : NinjaOp → List String
  | .addDefaultsOne s => [s]
  | .addDefaultsMany l => l
  | _ => []

theorem runNinjaOps_written (ops : List NinjaOp) :
    ∀ g : NinjaGenerator, (runNinjaOps g ops).written = g.written ++ (ops.map opRuleChunks).flatten := by
  induction ops with
  | nil => intro g; simp [runNinjaOps]
  | cons op rest ih =>
      intro g
      have step : runNinjaOps g (op :: rest) = runNinjaOps (applyNinjaOp g op) rest := rfl
      rw [step, ih]
      cases op <;> simp [applyNinjaOp, opRuleChunks]

theorem runNinjaOps_build (ops : List NinjaOp) :
    ∀ g : NinjaGenerator,
      (runNinjaOps g ops).build_item = g.build_item ++ (ops.map opBuildStmts).flatten := by
  induction ops with
  | nil => intro g; simp [runNinjaOps]
  | cons op rest ih =>
      intro g
      have step : runNinjaOps g (op :: rest) = runNinjaOps (applyNinjaOp g op) rest := rfl
      rw [step, ih]
      cases op <;> simp [applyNinjaOp, opBuildStmts]

theorem runNinjaOps_default (ops : List NinjaOp) :
    ∀ g : NinjaGenerator,
      (runNinjaOps g ops).default_item = g.default_item ++ (ops.map opDefaults).flatten := by
  induction ops with
  | nil => intro g; simp [runNinjaOps]
  | cons op rest ih =>
      intro g
      have step : runNinjaOps g (op :: rest) = runNinjaOps (applyNinjaOp g op) rest := rfl
      rw [step, ih]
      cases op <;> simp [applyNinjaOp, opDefaults]

/-- C2: for every session (any interleaving of `add_rule` / `add_build` /
`add_defaults` calls) and every exit path (any exception information
`exc`), the sink receives, in order: the header, every rule block (in call
order), every build statement (in call order), the statement-count comment,
and exactly one `default <targets>` line.  Moreover the second conjunct
shows that before scoped release the sink holds only the header and the rule
blocks: build statements and the default line are written only by
`__exit__`. -/
theorem c2_emitter_ordering (cur_time : String) (exc : Option String) (ops : List NinjaOp) :
    (ninjaExit exc (runNinjaOps (ninjaInit cur_time) ops)).written =
      headerChunks cur_time
        ++ (ops.map opRuleChunks).flatten
        ++ (ops.map opBuildStmts).flatten.foldr (fun l acc => l :: "\n" :: acc) []
        ++ ["# " ++ toString (ops.map opBuildStmts).flatten.length
              ++ " build statements were generated\n",
            "# default target:\n",
            "default " ++ String.intercalate " " (ops.map opDefaults).flatten,
            "\n"] ∧
    (runNinjaOps (ninjaInit cur_time) ops).written =
      headerChunks cur_time ++ (ops.map opRuleChunks).flatten := by
  constructor
  · simp [ninjaExit, runNinjaOps_written, runNinjaOps_build, runNinjaOps_default, ninjaInit]
  · simp [runNinjaOps_written, ninjaInit]

/-! ## Stage rule memoization (`src/ninjar/ninja.py`, `Stage.apply`)

`Stage.__init__` sets `generated_rule = False`; `Stage.apply(input)` calls
the abstract `generate_rule()` exactly when the flag is still unset, sets
the flag, and then always calls the abstract `generate_build(input)`,
returning its single output path.  The abstract methods are modelled as
functions over an arbitrary world type `σ` (the generator plus anything
else they touch), so the theorem holds for every subclass behaviour. -/

/-- The base-class state `Stage.__init__` initializes. -/
structure StageState where
  name : String
  generated_rule : Bool
deriving DecidableEq

/-- `Stage.__init__(ninja, name)`: the memoization flag starts unset. -/
def stageInit (name : String) : StageState := { name := name, generated_rule := false }

/-- `Stage.apply(input)`: emit the rule on the first invocation only, then
generate the build statement, returning exactly one output path. -/
def stageApply {σ : Type} (genRule : σ → σ) (genBuild : List String → σ → String × σ)
    (st : StageState) (input : List String) (w : σ) : String × StageState × σ :=
  let p := if st.generated_rule then (st, w)
           else ({ st with generated_rule := true }, genRule w)
  let q := genBuild input p.2
  (q.1, p.1, q.2)

/-- A sequence of `apply` invocations on the same `Stage` instance within
one generator session. -/
def stageApplyMany {σ : Type} (genRule : σ → σ) (genBuild : List String → σ → String × σ) :
    List (List String) → StageState → σ → List String × StageState × σ
  | [], st, w => ([], st, w)
  | inp :: rest, st, w =>
      let r1 := stageApply genRule genBuild st inp w
      let r2 := stageApplyMany genRule genBuild rest r1.2.1 r1.2.2
      (r1.1 :: r2.1, r2.2.1, r2.2.2)

/-- Observable side effects of the two abstract methods. -/
inductive StageEvent where
  | ruleEmitted
  | buildEmitted (input : List String)
deriving DecidableEq

/-- Instrumented world: `generate_rule` records a rule emission. -/
def traceGenRule (tr : List StageEvent) : List StageEvent := tr ++ [.ruleEmitted]

/-- Instrumented world: `generate_build` records a build emission and
returns the subclass's output path for the input. -/
def traceGenBuild (outFn : List String → String) (input : List String)
    (tr : List StageEvent) : String × List StageEvent :=
  (outFn input, tr ++ [.buildEmitted input])

theorem stageApplyMany_generated {outFn : List String → String} (name : String) :
    ∀ (inputs : List (List String)) (tr : List StageEvent),
      stageApplyMany traceGenRule (traceGenBuild outFn) inputs ⟨name, true⟩ tr =
        (inputs.map outFn, ⟨name, true⟩, tr ++ inputs.map StageEvent.buildEmitted) := by
  intro inputs
  induction inputs with
  | nil => intro tr; simp [stageApplyMany]
  | cons inp rest ih =>
      intro tr
      simp [stageApplyMany, stageApply, traceGenBuild, ih]

/-- C3: for every Stage (any subclass behaviour `outFn`, any rule name) and
every non-empty sequence of `apply` invocations on one fresh instance, the
rule is emitted exactly once — by the first invocation, before its build —
and every invocation invokes `generate_build` once, producing exactly one
output path (`outFn` applied to its input). -/
theorem c3_rule_emitted_once (name : String) (outFn : List String → String)
    (inp : List String) (rest : List (List String)) :
    stageApplyMany traceGenRule (traceGenBuild outFn) (inp :: rest) (stageInit name) [] =
      ((inp :: rest).map outFn, ⟨name, true⟩,
        .ruleEmitted :: (inp :: rest).map StageEvent.buildEmitted) := by
  simp [stageApplyMany, stageApply, stageInit, traceGenRule, traceGenBuild,
    stageApplyMany_generated name rest]

/-! ## Query combinators (`src/ninjar/ninja.py`, `Query`)

A `Query` is a lazy generator of `Element`s; we model a drained query as the
list of elements yielded before completion, paired with the
`QueryTypeError` that aborted it, if any. -/

/-- `Element`: an ordered path list plus one type tag (`type_<ext>`, or the
reserved `:any` / `:undefined`). -/
structure Element where
  element : List String
  type_name : String
deriving DecidableEq

/-- The `QueryTypeError` cases, with the context the code reports. -/
inductive QErr where
  | applyTypeMismatch (tag : String) (accepted : List String)
  | applyUnknownExt (outFile : String)
  | foldTypeMismatch (tag expected : String)
deriving DecidableEq

/-- The basename of a POSIX path: the characters after the last `/`
(`os.path.splitext` only looks at the last component). -/
def afterLastSlash (p : List Char) : List Char :=
  (p.reverse.takeWhile (fun c => c ≠ '/')).reverse

/-- The extension (with its dot) of a basename, per `os.path.splitext`:
empty when every dot is leading, otherwise from the last dot to the end. -/
def extFromBase (b : List Char) : List Char :=
  let stripped := b.dropWhile (fun c => c = '.')
  if stripped.contains '.' then
    '.' :: (stripped.reverse.takeWhile (fun c => c ≠ '.')).reverse
  else []

/-- `Query._extension_name(file) = os.path.splitext(file)[1][1:].lower()`:
the extension without the dot, lowercased (empty when the path has no
extension). -/
def extension_name (file : String) : String :=
  String.mk (((extFromBase (afterLastSlash file.data)).drop 1).map Char.toLower)

example : extension_name "123.c" = "c" := by decide
example : extension_name "a/b.c/out" = "" := by decide
example : extension_name "x/.bashrc" = "" := by decide
example : extension_name "obj/MAIN.O" = "o" := by decide

/-- The pure view of a `Stage` that `Query.apply` consumes: its
`input_type()` list and the output path `stage.apply` returns for a given
input path list. -/
structure StageView where
  inputType : List String
  applyFn : List String → String

/-- The inner rule loop of `Query.apply` for one upstream element: for each
given stage, check `':any' not in inp_type and item.type_name not in
inp_type` (raise `QueryTypeError` on mismatch), apply the stage, re-derive
the output tag from the output path's extension (raise when there is
none), and yield `Element([out_file], 'type_' + ext)`.  Elements yielded
before a raising pairing are kept, matching the generator's laziness. -/
def applyItemRules : List StageView → Element → List Element × Option QErr
  | [], _ => ([], none)
  | r :: rs, item =>
      if ¬ r.inputType.contains ":any" ∧ ¬ r.inputType.contains item.type_name then
        ([], some (.applyTypeMismatch item.type_name r.inputType))
      else
        let out := r.applyFn item.element
        let ext := extension_name out
        if ext.length = 0 then ([], some (.applyUnknownExt out))
        else
          let p := applyItemRules rs item
          ({ element := [out], type_name := "type_" ++ ext } :: p.1, p.2)

/-- `Query.apply(*rule)` drained over an upstream element list. -/
def queryApply (rules : List StageView) : List Element → List Element × Option QErr
  | [] => ([], none)
  | item :: rest =>
      let p := applyItemRules rules item
      match p.2 with
      | some err => (p.1, some err)
      | none =>
          let q := queryApply rules rest
          (p.1 ++ q.1, q.2)

/-- The loop of `Query.fold`: accumulate paths, adopt the first tag while
the running tag is still `:undefined`, and raise on any later differing
tag; the single folded element is yielded only after the loop. -/
def queryFoldGo : List Element → List String → String → List Element × Option QErr
  | [], lst, t => ([{ element := lst, type_name := t }], none)
  | item :: rest, lst, t =>
      if t = ":undefined" then
        queryFoldGo rest (lst ++ item.element) item.type_name
      else if item.type_name ≠ t then
        ([], some (.foldTypeMismatch item.type_name t))
      else
        queryFoldGo rest (lst ++ item.element) t

/-- `Query.fold()` drained over an upstream element list. -/
def queryFold (items : List Element) : List Element × Option QErr :=
  queryFoldGo items [] ":undefined"

/-- All member paths of a list of elements, in encounter order. -/
def allPaths (es : List Element) : List String :=
  (es.map Element.element).flatten

theorem string_length_eq_zero {s : String} : s.length = 0 ↔ s = "" := by
  cases s with
  | mk data => simp [String.length, String.ext_iff]

/-- C4: for every upstream Element and Stage handed to `Query.apply`:
a tag outside the accepted set (with `:any` also absent) makes the drain
raise `QueryTypeError` and yield nothing for that pairing; on a tag match
the yielded Element's tag is `type_` + the output path's extension; and an
output path without an extension raises `QueryTypeError`. -/
theorem c4_apply_type_check (item : Element) (r : StageView) :
    ((r.inputType.contains ":any" = false ∧ r.inputType.contains item.type_name = false) →
      queryApply [r] [item] = ([], some (.applyTypeMismatch item.type_name r.inputType))) ∧
    ((r.inputType.contains ":any" = true ∨ r.inputType.contains item.type_name = true) →
      (extension_name (r.applyFn item.element) ≠ "" →
        queryApply [r] [item] =
          ([{ element := [r.applyFn item.element],
              type_name := "type_" ++ extension_name (r.applyFn item.element) }], none)) ∧
      (extension_name (r.applyFn item.element) = "" →
        queryApply [r] [item] = ([], some (.applyUnknownExt (r.applyFn item.element))))) := by
  constructor
  · intro hpair
    have h1 : ":any" ∉ r.inputType := by have := hpair.1; simpa using this
    have h2 : item.type_name ∉ r.inputType := by have := hpair.2; simpa using this
    simp [queryApply, applyItemRules, h1, h2]
  · intro h
    have hcond : ¬ (":any" ∉ r.inputType ∧ item.type_name ∉ r.inputType) := by
      rcases h with h | h
      · have hm : ":any" ∈ r.inputType := by simpa using h
        tauto
      · have hm : item.type_name ∈ r.inputType := by simpa using h
        tauto
    constructor
    · intro hext
      have hlen : ¬ (extension_name (r.applyFn item.element)).length = 0 := by
        rw [string_length_eq_zero]; exact hext
      simp [queryApply, applyItemRules, hcond, hlen]
    · intro hext
      have hlen : (extension_name (r.applyFn item.element)).length = 0 := by
        rw [string_length_eq_zero]; exact hext
      simp [queryApply, applyItemRules, hcond, hlen]

/-- Witness for `c4_apply_type_check`: a `type_c` element against a stage
accepting only `type_cpp`. -/
theorem c4_apply_type_check_witness :
    queryApply [{ inputType := ["type_cpp"], applyFn := fun _ => "out.o" }]
        [{ element := ["a.c"], type_name := "type_c" }] =
      ([], some (.applyTypeMismatch "type_c" ["type_cpp"])) :=
  (c4_apply_type_check { element := ["a.c"], type_name := "type_c" }
    { inputType := ["type_cpp"], applyFn := fun _ => "out.o" }).1 ⟨by decide, by decide⟩

/-- Tail lemma for `fold`: once the running tag is a non-`:undefined` tag
`t` and every remaining element carries `t`, the fold completes with the
accumulated concatenation. -/
theorem queryFoldGo_all_eq (t : String) (ht : t ≠ ":undefined") :
    ∀ (rest : List Element) (lst : List String),
      (∀ e ∈ rest, e.type_name = t) →
      queryFoldGo rest lst t = ([{ element := lst ++ allPaths rest, type_name := t }], none) := by
  intro rest
  induction rest with
  | nil => intro lst _; simp [queryFoldGo, allPaths]
  | cons e rest ih =>
      intro lst hall
      have he : e.type_name = t := hall e (by simp)
      have hrest : ∀ x ∈ rest, x.type_name = t := fun x hx => hall x (by simp [hx])
      simp [queryFoldGo, ht, he, ih (lst ++ e.element) hrest, allPaths]

/-- Tail lemma for `fold`: once the running tag is a non-`:undefined` tag
`t`, a remaining element with a different tag aborts the fold with
`QueryTypeError` and no yielded element. -/
theorem queryFoldGo_mismatch (t : String) (ht : t ≠ ":undefined") :
    ∀ (rest : List Element) (lst : List String),
      (∃ e ∈ rest, e.type_name ≠ t) →
      ∃ a b, queryFoldGo rest lst t = ([], some (.foldTypeMismatch a b)) := by
  intro rest
  induction rest with
  | nil => intro lst h; obtain ⟨e, he, _⟩ := h; cases he
  | cons e rest ih =>
      intro lst h
      by_cases he : e.type_name = t
      · have hrest : ∃ x ∈ rest, x.type_name ≠ t := by
          obtain ⟨x, hx, hxt⟩ := h
          rcases List.mem_cons.mp hx with hxe | hxr
          · exact absurd (hxe ▸ hxt) (by simp [he])
          · exact ⟨x, hxr, hxt⟩
        obtain ⟨a, b, hab⟩ := ih (lst ++ e.element) hrest
        exact ⟨a, b, by simp [queryFoldGo, ht, he, hab]⟩
      · exact ⟨e.type_name, t, by simp [queryFoldGo, ht, he]⟩

/-- C5 counterexample: `fold()` over two Elements with the differing tags
`:undefined` and `type_c` (the first being exactly what `fold()` of an
empty query yields) does NOT raise `QueryTypeError`: the leading
`:undefined` element is transparent, its paths are absorbed, and the fold
succeeds tagged `type_c`.  This refutes the claim that `fold()` raises
whenever two Elements carry differing tags. -/
theorem c5_counterexample :
    (Element.mk ["a"] ":undefined").type_name ≠ (Element.mk ["b"] "type_c").type_name ∧
    queryFold [Element.mk ["a"] ":undefined", Element.mk ["b"] "type_c"] =
      ([Element.mk ["a", "b"] "type_c"], none) :=
  ⟨by decide, by decide⟩

/-- C5 (amended): for every non-empty sequence of Elements none of which is
tagged with the reserved `:undefined`, `fold()` raises `QueryTypeError`
(yielding nothing) if two Elements carry differing tags, and otherwise
yields exactly one Element whose path list is the concatenation of all
member paths in encounter order, tagged with the shared tag.  (Elements
tagged `:undefined` are transparent to the running tag, as
`c5_counterexample` shows, which is why they are excluded.) -/
theorem c5_amended (e0 : Element) (rest : List Element)
    (hu : ∀ e ∈ e0 :: rest, e.type_name ≠ ":undefined") :
    ((∃ a ∈ e0 :: rest, ∃ b ∈ e0 :: rest, a.type_name ≠ b.type_name) →
      ∃ t t2, queryFold (e0 :: rest) = ([], some (.foldTypeMismatch t t2))) ∧
    ((∀ a ∈ e0 :: rest, a.type_name = e0.type_name) →
      queryFold (e0 :: rest) =
        ([{ element := allPaths (e0 :: rest), type_name := e0.type_name }], none)) := by
  have ht0 : e0.type_name ≠ ":undefined" := hu e0 (by simp)
  have hstep : queryFold (e0 :: rest) = queryFoldGo rest e0.element e0.type_name := by
    simp [queryFold, queryFoldGo]
  constructor
  · intro hdiff
    obtain ⟨a, ha, b, hb, hab⟩ := hdiff
    have hrest : ∃ e ∈ rest, e.type_name ≠ e0.type_name := by
      by_cases hae : a.type_name = e0.type_name
      · have hbe : b.type_name ≠ e0.type_name := fun hh => hab (hae.trans hh.symm)
        rcases List.mem_cons.mp hb with hb0 | hbr
        · exact absurd (hb0 ▸ hbe) (by simp)
        · exact ⟨b, hbr, hbe⟩
      · rcases List.mem_cons.mp ha with ha0 | har
        · exact absurd (ha0 ▸ hae) (by simp)
        · exact ⟨a, har, hae⟩
    obtain ⟨t, t2, htt⟩ := queryFoldGo_mismatch e0.type_name ht0 rest e0.element hrest
    exact ⟨t, t2, hstep ▸ htt⟩
  · intro hall
    have hrest : ∀ e ∈ rest, e.type_name = e0.type_name := fun e he => hall e (by simp [he])
    rw [hstep, queryFoldGo_all_eq e0.type_name ht0 rest e0.element hrest]
    simp [allPaths]

/-- Witness for `c5_amended`: two `type_c` elements fold into one. -/
theorem c5_amended_witness :
    queryFold [Element.mk ["a.c"] "type_c", Element.mk ["b.c", "c.c"] "type_c"] =
      ([{ element := ["a.c", "b.c", "c.c"], type_name := "type_c" }], none) :=
  (c5_amended (Element.mk ["a.c"] "type_c") [Element.mk ["b.c", "c.c"] "type_c"]
    (by decide)).2 (by decide)

/-- C10: `fold()` over the empty query does not raise: it yields exactly one
Element with an empty path list, tagged with the reserved `:undefined` —
which is thereby observable at the public interface. -/
theorem c10_fold_empty :
    queryFold [] = ([{ element := [], type_name := ":undefined" }], none) := by decide

/-! ## Action runner (`src/ninjar/main.py`, `BuildScript`)

`_run_actions` walks the requested action names with one shared
`track_list` (the per-invocation "already run" set, which also records
completion order); `_run_single_action` skips actions already in
`track_list`, fails on unknown names (reporting the reversed dependency
chain), fails on a name already on the current `depth_list` (reporting the
cycle path), recursively runs the declared dependencies with a copy of the
extended `depth_list`, then invokes the action's callback and appends the
name to `track_list`.  The callback invocations are recorded in `trace`
(which the code interleaves with `track` one-for-one).  Python's unbounded
recursion is modelled by a fuel parameter whose exhaustion is the distinct
error `noFuel`, so an error-free model run corresponds exactly to a
terminating Python run. -/

/-- A registered action: its unique name and declared dependency names. -/
structure ActionDef where
  name : String
  deps : List String
deriving DecidableEq

/-- Errors of the runner: the `_run_actions` unknown-name check, the
`_run_single_action` unknown-dependency and cycle errors (carrying the
message text the code builds), and fuel exhaustion (model artefact). -/
inductive RunErr where
  | unknownAction (action : String)
  | actionMissing (msg : String)
  | cycleRef (msg : String)
  | noFuel
deriving DecidableEq

/-- `self.actions[action]` (keys are the action names; registration rejects
duplicates). -/
def findAction (acts : List ActionDef) (action : String) : Option ActionDef :=
  acts.find? (fun a => a.name == action)

/-- The declared dependencies of a registered action name. -/
def depsOf (acts : List ActionDef) (action : String) : List String :=
  match findAction acts action with
  | some act => act.deps
  | none => []

/-- `f'cycle reference: {act.name} -> {" -> ".join(reversed(depth_list))}'`. -/
def cycleMsg (name : String) (depth : List String) : String :=
  "cycle reference: " ++ name ++ " -> " ++ String.intercalate " -> " depth.reverse

/-- `f'action {action} was not found, deps: {" -> ".join(reversed(depth_list))}'`. -/
def notFoundMsg (action : String) (depth : List String) : String :=
  "action " ++ action ++ " was not found, deps: " ++ String.intercalate " -> " depth.reverse

/-- Runner state: the shared `track_list`, the callback-invocation record,
and the pending exception (`none` while no error has been raised). -/
structure RState where
  track : List String
  trace : List String
  err : Option RunErr
deriving DecidableEq

/-- `BuildScript._run_single_action(action, options, track_list,
depth_list)`.  An already-raised error passes through unchanged (exception
propagation). -/
def runSingle (acts : List ActionDef) : Nat → String → List String → RState → RState
  | 0, _, _, st =>
      if st.err = none then { st with err := some .noFuel } else st
  | fuel + 1, action, depth, st =>
      if st.err = none then
        if action ∈ st.track then st
        else
          match findAction acts action with
          | none => { st with err := some (.actionMissing (notFoundMsg action depth)) }
          | some act =>
              if act.name ∈ depth then
                { st with err := some (.cycleRef (cycleMsg act.name depth)) }
              else
                let st2 := act.deps.foldl
                  (fun s d => runSingle acts fuel d (depth ++ [act.name]) s) st
                if st2.err = none then
                  { st2 with track := st2.track ++ [action], trace := st2.trace ++ [action] }
                else st2
      else st

/-- One step of the `_run_actions` loop: the unknown-name check
(`'Cannot find action'`) followed by `_run_single_action` with a fresh
`depth_list`; a pending error passes through. -/
def runReqStep (acts : List ActionDef) (fuel : Nat) (st : RState) (a : String) : RState :=
  if st.err = none then
    match findAction acts a with
    | none => { st with err := some (.unknownAction a) }
    | some _ => runSingle acts fuel a [] st
  else st

/-- `BuildScript._run_actions(actions, options)`: fresh `track_list`, each
requested name checked against the registry and run with a fresh
`depth_list`. -/
def runActions (acts : List ActionDef) (fuel : Nat) (requested : List String) : RState :=
  requested.foldl (runReqStep acts fuel) { track := [], trace := [], err := none }

/-- The two-action cycle of claim C6. -/
def cycleActs : List ActionDef := [⟨"A", ["B"]⟩, ⟨"B", ["A"]⟩]

/-- C6: with `A` depending on `[B]` and `B` depending on `[A]`, running `A`
raises the cycle error whose message reports the active path
`A -> B -> A`, and neither action's callback runs (the trace is empty). -/
theorem c6_cycle_detected :
    runActions cycleActs 10 ["A"] =
      { track := [], trace := [],
        err := some (.cycleRef "cycle reference: A -> B -> A") } := by decide

/-! ### The already-run set runs every action at most once (claim C7) -/

theorem runSingle_absorb (acts : List ActionDef) (fuel : Nat) (action : String)
    (depth : List String) (st : RState) (h : st.err ≠ none) :
    runSingle acts fuel action depth st = st := by
  cases fuel <;> simp [runSingle, h]

theorem runSingle_err_none {acts : List ActionDef} {fuel : Nat} {action : String}
    {depth : List String} {st : RState}
    (h : (runSingle acts fuel action depth st).err = none) : st.err = none := by
  by_cases hs : st.err = none
  · exact hs
  · rw [runSingle_absorb acts fuel action depth st hs] at h
    exact absurd h hs

theorem foldDeps_absorb (acts : List ActionDef) (fuel : Nat) (depth : List String) :
    ∀ (ds : List String) (st : RState), st.err ≠ none →
      ds.foldl (fun s d => runSingle acts fuel d depth s) st = st := by
  intro ds
  induction ds with
  | nil => intro st _; rfl
  | cons d rest ih =>
      intro st h
      rw [List.foldl_cons, runSingle_absorb acts fuel d depth st h, ih st h]

theorem foldDeps_err_none {acts : List ActionDef} {fuel : Nat} {depth : List String}
    {ds : List String} {st : RState}
    (h : (ds.foldl (fun s d => runSingle acts fuel d depth s) st).err = none) :
    st.err = none := by
  by_cases hs : st.err = none
  · exact hs
  · rw [foldDeps_absorb acts fuel depth ds st hs] at h
    exact absurd h hs

/-- What one (sub)run adds to the runner state when it finishes without an
error: the same fresh, duplicate-free block `new` of completed actions is
appended to `track_list` and to the callback record; none of the additions
was already run, none lies on the active `depth_list`, and each addition had
all its declared dependencies completed by the end of the run. -/
structure RunDelta (acts : List ActionDef) (depth : List String) (st st2 : RState)
    (new : List String) : Prop where
  track_eq : st2.track = st.track ++ new
  trace_eq : st2.trace = st.trace ++ new
  nodup : new.Nodup
  fresh : ∀ x ∈ new, x ∉ st.track
  not_on_path : ∀ x ∈ new, x ∉ depth
  closed : ∀ x ∈ new, ∀ d ∈ depsOf acts x, d ∈ st2.track

theorem RunDelta.refl (acts : List ActionDef) (depth : List String) (st : RState) :
    RunDelta acts depth st st [] where
  track_eq := by simp
  trace_eq := by simp
  nodup := List.nodup_nil
  fresh := by intro x hx; cases hx
  not_on_path := by intro x hx; cases hx
  closed := by intro x hx; cases hx

theorem RunDelta.comp {acts : List ActionDef} {depth : List String} {st st1 st2 : RState}
    {n1 n2 : List String}
    (h1 : RunDelta acts depth st st1 n1) (h2 : RunDelta acts depth st1 st2 n2) :
    RunDelta acts depth st st2 (n1 ++ n2) where
  track_eq := by rw [h2.track_eq, h1.track_eq, List.append_assoc]
  trace_eq := by rw [h2.trace_eq, h1.trace_eq, List.append_assoc]
  nodup := by
    refine h1.nodup.append h2.nodup ?_
    intro x hx1 hx2
    exact h2.fresh x hx2 (by rw [h1.track_eq]; exact List.mem_append_right _ hx1)
  fresh := by
    intro x hx
    rcases List.mem_append.mp hx with h | h
    · exact h1.fresh x h
    · intro hmem
      exact h2.fresh x h (by rw [h1.track_eq]; exact List.mem_append_left _ hmem)
  not_on_path := by
    intro x hx
    rcases List.mem_append.mp hx with h | h
    · exact h1.not_on_path x h
    · exact h2.not_on_path x h
  closed := by
    intro x hx d hd
    rcases List.mem_append.mp hx with h | h
    · rw [h2.track_eq]
      exact List.mem_append_left _ (h1.closed x h d hd)
    · exact h2.closed x h d hd

/-- The dependency loop of `_run_single_action`: folding `runSingle` over
the dependency list composes the per-dependency deltas and completes every
dependency. -/
theorem foldDeps_delta (acts : List ActionDef) (fuel : Nat)
    (ih : ∀ (action : String) (depth : List String) (st : RState),
      st.err = none → (runSingle acts fuel action depth st).err = none →
      ∃ new, RunDelta acts depth st (runSingle acts fuel action depth st) new ∧
        action ∈ (runSingle acts fuel action depth st).track) :
    ∀ (ds : List String) (depth : List String) (st : RState),
      st.err = none →
      (ds.foldl (fun s d => runSingle acts fuel d depth s) st).err = none →
      ∃ new, RunDelta acts depth st
          (ds.foldl (fun s d => runSingle acts fuel d depth s) st) new ∧
        ∀ d ∈ ds, d ∈ (ds.foldl (fun s d => runSingle acts fuel d depth s) st).track := by
  intro ds
  induction ds with
  | nil =>
      intro depth st h0 _
      exact ⟨[], RunDelta.refl acts depth st, by simp⟩
  | cons d rest ihds =>
      intro depth st h0 hres
      rw [List.foldl_cons] at hres ⊢
      have h1n : (runSingle acts fuel d depth st).err = none := foldDeps_err_none hres
      obtain ⟨n1, hd1, hmem1⟩ := ih d depth st h0 h1n
      obtain ⟨n2, hd2, hmem2⟩ := ihds depth (runSingle acts fuel d depth st) h1n hres
      refine ⟨n1 ++ n2, hd1.comp hd2, ?_⟩
      intro x hx
      rcases List.mem_cons.mp hx with hxd | hxr
      · subst hxd
        rw [hd2.track_eq]
        exact List.mem_append_left _ hmem1
      · exact hmem2 x hxr

/-- Main invariant of `_run_single_action`, by induction on fuel: an
error-free run from an error-free state appends a well-formed `RunDelta`
block and leaves the requested action completed. -/
theorem runSingle_delta (acts : List ActionDef) :
    ∀ (fuel : Nat) (action : String) (depth : List String) (st : RState),
      st.err = none → (runSingle acts fuel action depth st).err = none →
      ∃ new, RunDelta acts depth st (runSingle acts fuel action depth st) new ∧
        action ∈ (runSingle acts fuel action depth st).track := by
  intro fuel
  induction fuel with
  | zero =>
      intro action depth st h0 hres
      rw [show runSingle acts 0 action depth st
          = if st.err = none then { st with err := some .noFuel } else st from rfl] at hres
      simp [h0] at hres
  | succ fuel ih =>
      intro action depth st h0 hres
      by_cases htr : action ∈ st.track
      · have hr : runSingle acts (fuel + 1) action depth st = st := by
          simp [runSingle, h0, htr]
        rw [hr] at hres ⊢
        exact ⟨[], RunDelta.refl acts depth st, htr⟩
      · cases hfa : findAction acts action with
        | none =>
            have hr : runSingle acts (fuel + 1) action depth st
                = { st with err := some (.actionMissing (notFoundMsg action depth)) } := by
              simp [runSingle, h0, htr, hfa]
            rw [hr] at hres
            cases hres
        | some act =>
            have hname : act.name = action := by
              have hfa2 : acts.find? (fun a => a.name == action) = some act := hfa
              have hp := List.find?_some hfa2
              simpa using hp
            by_cases hdep : act.name ∈ depth
            · have hr : runSingle acts (fuel + 1) action depth st
                  = { st with err := some (.cycleRef (cycleMsg act.name depth)) } := by
                simp [runSingle, h0, htr, hfa, hdep]
              rw [hr] at hres
              cases hres
            · by_cases h2 : (act.deps.foldl
                  (fun s d => runSingle acts fuel d (depth ++ [act.name]) s) st).err = none
              · have hfin : runSingle acts (fuel + 1) action depth st
                    = { act.deps.foldl
                          (fun s d => runSingle acts fuel d (depth ++ [act.name]) s) st with
                        track := (act.deps.foldl
                          (fun s d => runSingle acts fuel d (depth ++ [act.name]) s) st).track
                            ++ [action],
                        trace := (act.deps.foldl
                          (fun s d => runSingle acts fuel d (depth ++ [act.name]) s) st).trace
                            ++ [action] } := by
                  simp [runSingle, h0, htr, hfa, hdep, h2]
                obtain ⟨nd, hnd, hdeps⟩ := foldDeps_delta acts fuel ih act.deps
                  (depth ++ [act.name]) st h0 h2
                have hanotin : action ∉ nd := by
                  intro hin
                  exact hnd.not_on_path action hin
                    (by rw [hname]; exact List.mem_append_right _ (by simp))
                rw [hfin]
                refine ⟨nd ++ [action], ?_, ?_⟩
                · refine ⟨?_, ?_, ?_, ?_, ?_, ?_⟩
                  · simp [hnd.track_eq]
                  · simp [hnd.trace_eq]
                  · refine hnd.nodup.append (by simp) ?_
                    intro x hx1 hx2
                    simp at hx2
                    exact hanotin (hx2 ▸ hx1)
                  · intro x hx
                    rcases List.mem_append.mp hx with h | h
                    · exact hnd.fresh x h
                    · simp at h
                      exact h ▸ htr
                  · intro x hx
                    rcases List.mem_append.mp hx with h | h
                    · exact fun hmem => hnd.not_on_path x h (List.mem_append_left _ hmem)
                    · simp at h
                      subst h
                      intro hmem
                      exact hdep (hname ▸ hmem)
                  · intro x hx d hd
                    rcases List.mem_append.mp hx with h | h
                    · simp only [RState.track]
                      exact List.mem_append_left _ (hnd.closed x h d hd)
                    · simp at h
                      subst h
                      have hdx : d ∈ act.deps := by
                        simpa [depsOf, hfa] using hd
                      simp only [RState.track]
                      exact List.mem_append_left _ (hdeps d hdx)
                · simp
              · have hr : runSingle acts (fuel + 1) action depth st
                    = act.deps.foldl
                        (fun s d => runSingle acts fuel d (depth ++ [act.name]) s) st := by
                  simp [runSingle, h0, htr, hfa, hdep, h2]
                rw [hr] at hres
                exact absurd hres h2


theorem runReqStep_absorb (acts : List ActionDef) (fuel : Nat) (st : RState) (a : String)
    (h : st.err ≠ none) : runReqStep acts fuel st a = st := by
  simp [runReqStep, h]

theorem runReq_absorb (acts : List ActionDef) (fuel : Nat) :
    ∀ (req : List String) (st : RState), st.err ≠ none →
      req.foldl (runReqStep acts fuel) st = st := by
  intro req
  induction req with
  | nil => intro st _; rfl
  | cons a rest ih =>
      intro st h
      rw [List.foldl_cons, runReqStep_absorb acts fuel st a h, ih st h]

theorem runReq_err_none {acts : List ActionDef} {fuel : Nat} {req : List String} {st : RState}
    (h : (req.foldl (runReqStep acts fuel) st).err = none) : st.err = none := by
  by_cases hs : st.err = none
  · exact hs
  · rw [runReq_absorb acts fuel req st hs] at h
    exact absurd h hs

/-- The requested-action loop of `_run_actions` composes the per-action
deltas and completes every requested action. -/
theorem runActions_delta (acts : List ActionDef) (fuel : Nat) :
    ∀ (requested : List String) (st : RState), st.err = none →
      (requested.foldl (runReqStep acts fuel) st).err = none →
      ∃ new, RunDelta acts [] st (requested.foldl (runReqStep acts fuel) st) new ∧
        ∀ a ∈ requested, a ∈ (requested.foldl (runReqStep acts fuel) st).track := by
  intro requested
  induction requested with
  | nil =>
      intro st h0 _
      exact ⟨[], RunDelta.refl acts [] st, by simp⟩
  | cons a rest ih =>
      intro st h0 hres
      rw [List.foldl_cons] at hres ⊢
      cases hfa : findAction acts a with
      | none =>
          have hstep : runReqStep acts fuel st a
              = { st with err := some (.unknownAction a) } := by
            simp [runReqStep, h0, hfa]
          rw [hstep] at hres
          rw [runReq_absorb acts fuel rest _ (by simp)] at hres
          cases hres
      | some act =>
          have hstep : runReqStep acts fuel st a = runSingle acts fuel a [] st := by
            simp [runReqStep, h0, hfa]
          rw [hstep] at hres ⊢
          have h1n : (runSingle acts fuel a [] st).err = none := runReq_err_none hres
          obtain ⟨n1, hd1, hmem1⟩ := runSingle_delta acts fuel a [] st h0 h1n
          obtain ⟨n2, hd2, hmem2⟩ := ih (runSingle acts fuel a [] st) h1n hres
          refine ⟨n1 ++ n2, hd1.comp hd2, ?_⟩
          intro x hx
          rcases List.mem_cons.mp hx with hxa | hxr
          · subst hxa
            rw [hd2.track_eq]
            exact List.mem_append_left _ hmem1
          · exact hmem2 x hxr

/-- C7: within one `_run_actions` invocation that completes without error,
every requested action's callback runs, every dependency of an executed
action is executed in the same invocation, and every executed action's
callback runs exactly once — the shared `track_list` suppresses every later
occurrence, so in particular an action reachable as a dependency of two or
more requested actions runs exactly once. -/
theorem c7_shared_dependency_once (acts : List ActionDef) (fuel : Nat)
    (requested : List String)
    (h : (runActions acts fuel requested).err = none) :
    (∀ a ∈ requested, a ∈ (runActions acts fuel requested).trace) ∧
    (∀ x ∈ (runActions acts fuel requested).trace,
      ∀ d ∈ depsOf acts x, d ∈ (runActions acts fuel requested).trace) ∧
    ∀ x ∈ (runActions acts fuel requested).trace,
      (runActions acts fuel requested).trace.count x = 1 := by
  obtain ⟨new, hd, hmem⟩ :=
    runActions_delta acts fuel requested { track := [], trace := [], err := none } rfl h
  have htr : (runActions acts fuel requested).track = new := by
    have h1 := hd.track_eq
    simpa using h1
  have htc : (runActions acts fuel requested).trace = new := by
    have h1 := hd.trace_eq
    simpa using h1
  refine ⟨?_, ?_, ?_⟩
  · intro a ha
    rw [htc]
    have hmem2 : a ∈ (runActions acts fuel requested).track := hmem a ha
    rw [htr] at hmem2
    exact hmem2
  · intro x hx d hdp
    rw [htc] at hx ⊢
    have h1 : d ∈ (runActions acts fuel requested).track := hd.closed x hx d hdp
    rw [htr] at h1
    exact h1
  · intro x hx
    rw [htc] at hx ⊢
    exact List.count_eq_one_of_mem hd.nodup hx

/-- The diamond graph for the C7 witness: two requested actions `X`, `Y`
share the dependency `C`. -/
def diamondActs : List ActionDef := [⟨"X", ["C"]⟩, ⟨"Y", ["C"]⟩, ⟨"C", []⟩]

example : (runActions diamondActs 10 ["X", "Y"]).trace = ["C", "X", "Y"] := by decide

/-- Witness for `c7_shared_dependency_once` on the diamond graph. -/
theorem c7_shared_dependency_once_witness :
    (runActions diamondActs 10 ["X", "Y"]).err = none ∧
    ((∀ a ∈ ["X", "Y"], a ∈ (runActions diamondActs 10 ["X", "Y"]).trace) ∧
      (∀ x ∈ (runActions diamondActs 10 ["X", "Y"]).trace,
        ∀ d ∈ depsOf diamondActs x, d ∈ (runActions diamondActs 10 ["X", "Y"]).trace) ∧
      ∀ x ∈ (runActions diamondActs 10 ["X", "Y"]).trace,
        (runActions diamondActs 10 ["X", "Y"]).trace.count x = 1) :=
  ⟨by decide, c7_shared_dependency_once diamondActs 10 ["X", "Y"] (by decide)⟩


end Ninjar
